import Mathlib

/-
Shallow embedding of the mekramy/govalidator repository (Go).

The embedding models:
  * utils.go      : resolveParams, parseNumeric (with Go strconv.ParseInt semantics)
  * error.go      : the vErrors aggregate (ValidationError implementation)
  * driver.go     : I18nValidator — AddTranslation, translate, parseStructErrors,
                    parseVariableErrors
  * options.go    : WithTranslator
  * funcs/funcs.go: IsValidIranianNationalCode

Go maps are modelled as association lists (Go map iteration order is
unspecified; the list order stands for one arbitrary iteration order).
Go errors are modelled explicitly: the engine error that a pipeline call
receives is either nil (`Option.none`), a `validator.ValidationErrors`
value (a list of violation records), or any other non-nil error.
-/

namespace Govalidator

/-! ### Association lists standing for Go maps -/

/-- Lookup in an association list, mirroring a Go map read `m[k]`
(first binding wins; lists built by `updateA` never hold duplicate keys). -/
def lookupA {α : Type} : List (String × α) → String → Option α
  | [], _ => none
  | (k0, v) :: rest, k => if k0 = k then some v else lookupA rest k

/-- Insert-or-overwrite in an association list, mirroring a Go map write `m[k] = v`. -/
def updateA {α : Type} : List (String × α) → String → α → List (String × α)
  | [], k, v => [(k, v)]
  | (k0, v0) :: rest, k, v =>
    if k0 = k then (k, v) :: rest else (k0, v0) :: updateA rest k v

/-! ### Go standard-library helpers used by the source -/

/-- Go `unicode.IsSpace`: the Unicode White_Space property plus Latin-1 spaces,
exactly the set Go's `strings.TrimSpace` strips. -/
def goIsSpace (c : Char) : Bool :=
  let n := c.toNat
  (9 ≤ n && n ≤ 13) || n = 32 || n = 0x85 || n = 0xA0 || n = 0x1680 ||
    (0x2000 ≤ n && n ≤ 0x200A) || n = 0x2028 || n = 0x2029 ||
    n = 0x202F || n = 0x205F || n = 0x3000

/-- Go `strings.TrimSpace`: drop leading and trailing white-space characters. -/
def goTrimSpace (s : String) : String :=
  String.mk (((s.data.dropWhile goIsSpace).reverse.dropWhile goIsSpace).reverse)

/-- Decimal value of a non-empty all-digit character list; `none` when the list
is empty or holds a non-digit (Go `strconv` syntax error). -/
def decDigitsVal (cs : List Char) : Option Nat :=
  match cs with
  | [] => none
  | _ =>
    cs.foldl
      (fun acc c =>
        match acc with
        | none => none
        | some n => if c.isDigit then some (n * 10 + (c.toNat - 48)) else none)
      (some 0)

/-- Go `strconv.ParseInt(v, 10, 64)`. Returns the pair (returned int64 value,
whether err is non-nil). On syntax error Go returns 0; on range error Go
returns the clamped extreme of int64. -/
def goParseInt64 (v : String) : Int × Bool :=
  let cs := v.data
  let signed : Bool × List Char :=
    match cs with
    | '+' :: rest => (false, rest)
    | '-' :: rest => (true, rest)
    | _ => (false, cs)
  match decDigitsVal signed.2 with
  | none => (0, true)
  | some n =>
    if signed.1 then
      if n ≤ 2 ^ 63 then (-(n : Int), false) else (-(2 ^ 63 : Int), true)
    else
      if n < 2 ^ 63 then ((n : Int), false) else ((2 ^ 63 : Int) - 1, true)

/-! ### utils.go -/

/-- Embeds `resolveParams` (utils.go): first trimmed non-empty value, else fallback. -/
def resolveParams (fallback : String) (vals : List String) : String :=
  match vals with
  | v :: _ => if goTrimSpace v ≠ "" then goTrimSpace v else fallback
  | [] => fallback

/-- Embeds `parseNumeric` (utils.go). The Go function returns `(*int64, *float64)`:
it returns the int pointer exactly when `strconv.ParseInt(v, 10, 64)` reports an
error (the source tests `err != nil`), the pointer carrying ParseInt's on-error
value. Its float branch is dead code: it runs only when `ParseInt` succeeded,
and `strconv.ParseFloat` accepts (well inside float64 range) every string
`ParseInt(·, 10, 64)` accepts, so the float branch's own `err != nil` test is
always false there and the float result is always nil; the embedding therefore
carries only the int component. -/
def parseNumeric (v : String) : Option Int :=
  let r := goParseInt64 v
  if r.2 then some r.1 else none

/-! ### driver.go — parameter coercion inside the pipelines -/

/-- Runtime type of the `param any` value handed to translation: the original
string, or the int64 drawn from `parseNumeric`. (No float constructor is
needed: `parseNumeric` never yields a float, see its doc.) -/
inductive Param where
  | str : String → Param
  | int : Int → Param
deriving DecidableEq, Repr

/-- The `param`/`count` computation both pipelines perform per violation record
(driver.go lines 133–141 and 181–190). -/
def coerceParam (p : String) : Param × Int :=
  match parseNumeric p with
  | some i => (Param.int i, i)
  | none => (Param.str p, 0)

/-! ### Engine-side data (external collaborator, shape only) -/

/-- One violation record of `validator.ValidationErrors`: the accessors of
`validator.FieldError` the pipeline reads. `errMsg` is `field.Error()`,
the engine's own default message. -/
structure FieldError where
  field : String
  structField : String
  tag : String
  param : String
  errMsg : String
deriving DecidableEq, Repr

/-- A non-nil Go `error` reaching a pipeline: either a
`validator.ValidationErrors` value (the type assertion succeeds) or any
other error value (the assertion fails). -/
inductive GoErr where
  | violations : List FieldError → GoErr
  | other : String → GoErr
deriving DecidableEq, Repr

/-! ### error.go — the vErrors aggregate -/

/-- Embeds the `vErrors` struct (error.go): an optional internal error and the
field → rule → message map. -/
structure VErrors where
  interr : Option GoErr
  valerr : List (String × List (String × String))
deriving DecidableEq, Repr

/-- Embeds `NewError` (error.go): aggregate carrying an internal error. -/
def NewError (e : GoErr) : VErrors := ⟨some e, []⟩

/-- Embeds `NewEmptyError` (error.go): empty aggregate. -/
def NewEmptyError : VErrors := ⟨none, []⟩

def VErrors.HasError (e : VErrors) : Bool :=
  e.interr.isSome || !e.valerr.isEmpty

def VErrors.HasInternalError (e : VErrors) : Bool :=
  e.interr.isSome

def VErrors.HasValidationErrors (e : VErrors) : Bool :=
  !e.valerr.isEmpty

def VErrors.IsFailed (e : VErrors) (field : String) : Bool :=
  (lookupA e.valerr field).isSome

/-- Embeds `IsFailedOn` (error.go): Go's `e.valerr[field][rule]` reads the inner
map, a missing field yielding the nil map on which every lookup misses. -/
def VErrors.IsFailedOn (e : VErrors) (field rule : String) : Bool :=
  match lookupA e.valerr field with
  | some inner => (lookupA inner rule).isSome
  | none => false

def VErrors.InternalError (e : VErrors) : Option GoErr :=
  e.interr

def VErrors.Errors (e : VErrors) : List (String × List (String × String)) :=
  e.valerr

/-- Embeds `Messages` (error.go): per field, the list of messages of its inner map. -/
def VErrors.Messages (e : VErrors) : List (String × List String) :=
  e.valerr.map (fun p => (p.1, p.2.map Prod.snd))

/-- Embeds `Rules` (error.go): per field, the list of rule names of its inner map. -/
def VErrors.Rules (e : VErrors) : List (String × List String) :=
  e.valerr.map (fun p => (p.1, p.2.map Prod.fst))

/-- Embeds `AddError` (error.go): the stored message is
`resolveParams("", message...)`; an existing field's inner map is written in
place, a fresh field is bound to a singleton inner map. -/
def VErrors.AddError (e : VErrors) (field rule : String) (message : List String) : VErrors :=
  let msg := resolveParams "" message
  match lookupA e.valerr field with
  | some inner => ⟨e.interr, updateA e.valerr field (updateA inner rule msg)⟩
  | none => ⟨e.interr, e.valerr ++ [(field, [(rule, msg)])]⟩

/-! ### driver.go — the I18nValidator -/

/-- The external `goi18n.Translator` collaborator, abstracted to the one
operation `translate` consumes: `Plural(locale, key, count, args)`, where the
`args` map always holds exactly the two entries `field` (a string) and
`param`, passed here as the last two arguments. -/
structure Translator where
  plural : String → String → Int → String → Param → String

/-- A Go `any` value as the pipeline sees it: the two optional capabilities
(`Translatable.TranslateError` and `TranslatableField.TranslateTitle`,
funcs/funcs.go) it may implement, `none` when the type assertion fails. -/
structure GoValue where
  translateError : Option (String → String → String → String)
  translateTitle : Option (String → String → String)

/-- Embeds the `I18nValidator` struct (driver.go). The Go field `prefix` is
named `pfx` here because `prefix` is reserved in Lean; `translator` is nil
(`none`) when no translator was configured. The wrapped engine
(`validator.Validate`) is an external collaborator and is not part of the
state the claims touch. -/
structure I18nValidator where
  pfx : String
  translator : Option Translator

/-- Embeds `WithTranslator` (options.go): stores the translator and the
trimmed prefix. -/
def withTranslator (tr : Translator) (p : String) (_ : I18nValidator) : I18nValidator :=
  ⟨goTrimSpace p, some tr⟩

/-- The message key `translate` (driver.go lines 94–98) hands to the global
translator: the rule, prefixed with `pfx ++ "."` when a prefix is set. -/
def translateLookupKey (pfx rule : String) : String :=
  if pfx ≠ "" then pfx ++ "." ++ rule else rule

/-- Embeds `AddTranslation` (driver.go lines 25–36) as the `(locale, key,
message)` argument triple it passes to the external translator's `AddMessage`,
or `none` when the call is skipped (rule trims to empty, or no translator). -/
def I18nValidator.addTranslationCall (v : I18nValidator) (locale rule message : String) :
    Option (String × String × String) :=
  let r := goTrimSpace rule
  if r = "" || v.translator.isNone then none
  else if v.pfx = "" then some (locale, r, message)
  else some (locale, v.pfx ++ "." ++ r, message)

/-- Embeds `translate` (driver.go lines 81–111). An unimplemented capability
and a capability returning the empty string fall through identically, exactly
as the source's nested `ok` and `!= ""` tests do. -/
def I18nValidator.translate (v : I18nValidator) (locale name rule field : String)
    (param : Param) (value : GoValue) (count : Int) : String :=
  match v.translator with
  | none => ""
  | some tr =>
    let hook : String :=
      match value.translateError with
      | some t => t locale rule field
      | none => ""
    if hook ≠ "" then hook
    else
      let rule1 := translateLookupKey v.pfx rule
      let name1 : String :=
        match value.translateTitle with
        | some t => if t locale field ≠ "" then t locale field else name
        | none => name
      tr.plural locale rule1 count name1 param

/-- The message the struct pipeline stores for one record (driver.go lines
143–155): the engine default when no translator is configured, else the
`translate` result. -/
def I18nValidator.structMsg (v : I18nValidator) (locale : String) (value : GoValue)
    (fe : FieldError) : String :=
  match v.translator with
  | none => fe.errMsg
  | some _ =>
    v.translate locale fe.field fe.tag fe.structField
      (coerceParam fe.param).1 value (coerceParam fe.param).2

/-- The field key the struct pipeline records one record under: always the
engine-reported field name (driver.go lines 145 and 148). -/
def I18nValidator.structKey (_ : I18nValidator) (fe : FieldError) : String :=
  fe.field

/-- Embeds `parseStructErrors` (driver.go lines 115–161). -/
def I18nValidator.parseStructErrors (v : I18nValidator) (locale : String) (value : GoValue)
    (err : Option GoErr) : VErrors :=
  match err with
  | none => NewEmptyError
  | some (GoErr.other e) => NewError (GoErr.other e)
  | some (GoErr.violations errs) =>
    errs.foldl
      (fun res fe => res.AddError (v.structKey fe) fe.tag [v.structMsg locale value fe])
      NewEmptyError

/-- The message the variable pipeline stores for one record (driver.go lines
192–204): the engine default when no translator is configured, else the
`translate` result with the caller-supplied name passed both as display name
and as field name. -/
def I18nValidator.varMsg (v : I18nValidator) (locale name : String) (value : GoValue)
    (fe : FieldError) : String :=
  match v.translator with
  | none => fe.errMsg
  | some _ =>
    v.translate locale name fe.tag name
      (coerceParam fe.param).1 value (coerceParam fe.param).2

/-- The field key the variable pipeline records one record under: the
engine-reported field name when no translator is configured (driver.go line
194), the caller-supplied name otherwise (line 197). -/
def I18nValidator.varKey (v : I18nValidator) (name : String) (fe : FieldError) : String :=
  match v.translator with
  | none => fe.field
  | some _ => name

/-- Embeds `parseVariableErrors` (driver.go lines 164–209). -/
def I18nValidator.parseVariableErrors (v : I18nValidator) (locale name : String)
    (value : GoValue) (err : Option GoErr) : VErrors :=
  match err with
  | none => NewEmptyError
  | some (GoErr.other e) => NewError (GoErr.other e)
  | some (GoErr.violations errs) =>
    errs.foldl
      (fun res fe => res.AddError (v.varKey name fe) fe.tag [v.varMsg locale name value fe])
      NewEmptyError

/-! ### funcs/funcs.go — Iranian national-code checksum -/

/-- Embeds `IsValidIranianNationalCode` (funcs/funcs.go lines 46–73). Go first
checks `len(nationalCode) == 10` (bytes) and then the regexp `[0-9]{10}` (ten
ASCII digit characters); a string of ten ASCII digits satisfies both, and any
other string fails one of the two (ten characters that are not all ASCII
digits fail the regexp; a ten-byte string with multi-byte characters has
fewer than ten characters and fails the regexp as well), so the two Go
guards together are exactly `ten characters, all ASCII digits`, which the
embedding tests on the character list. The checksum loop mirrors the Go
`for i := 0; i < 9` accumulation. -/
def IsValidIranianNationalCode (s : String) : Bool :=
  let cs := s.data
  if cs.length ≠ 10 then false
  else if !(cs.all fun c => c.isDigit) then false
  else
    let ds := cs.map fun c => c.toNat - 48
    let sum := (List.range 9).foldl (fun acc i => acc + ds.getD i 0 * (10 - i)) 0
    let remainder := sum % 11
    let checkDigit := ds.getD 9 0
    if remainder < 2 then checkDigit == remainder else checkDigit == 11 - remainder

/-- The claim's own description of the national-code predicate, written from
its words for comparison with the source embedding: exactly 10 ASCII digits,
and the tenth digit equals the checksum of the first nine
(`sum of digit i times (10 - i) over i in 0..8`, `r = sum mod 11`,
check digit `r` when `r < 2`, else `11 - r`). -/
def specIranianNationalCode (s : String) : Bool :=
  let cs := s.data
  let ds := cs.map fun c => c.toNat - 48
  let sum := ((List.range 9).map fun i => ds.getD i 0 * (10 - i)).sum
  let r := sum % 11
  let check := if r < 2 then r else 11 - r
  decide (cs.length = 10) && cs.all (fun c => c.isDigit) && (ds.getD 9 0 == check)

/-! ### Derived query helpers used by the theorems -/

/-- Two-level lookup in the field → rule → message structure: the value of
`Errors()[field][rule]` as an option. -/
def lookupA2 (m : List (String × List (String × String))) (field rule : String) :
    Option String :=
  match lookupA m field with
  | some inner => lookupA inner rule
  | none => none

/-- All messages the aggregate holds for one `(field, rule)` pair: the inner
map of `field`, filtered to the entries keyed `rule`. A well-formed aggregate
holds at most one. -/
def VErrors.messagesFor (e : VErrors) (field rule : String) : List String :=
  match lookupA e.valerr field with
  | some inner => (inner.filter fun p => p.1 = rule).map Prod.snd
  | none => []

/-- Key lists of an association list. -/
def keysOf {α : Type} (m : List (String × α)) : List String :=
  m.map Prod.fst

/-- Well-formedness of the map model: no duplicate field keys, no duplicate
rule keys inside any field — the invariant every Go map holds by construction. -/
def VErrors.WF (e : VErrors) : Prop :=
  (keysOf e.valerr).Nodup ∧ ∀ p ∈ e.valerr, (keysOf p.2).Nodup

instance (e : VErrors) : Decidable e.WF := by
  unfold VErrors.WF; infer_instance

/-- The loop body both pipelines share, with the key and message selectors
abstracted: record one violation under `keyOf fe`, rule `fe.tag`, message
`msgOf fe`. `parseStructErrors` instantiates it with `structKey`/`structMsg`,
`parseVariableErrors` with `varKey`/`varMsg`. -/
def pipelineStep (keyOf msgOf : FieldError → String) (res : VErrors) (fe : FieldError) :
    VErrors :=
  res.AddError (keyOf fe) fe.tag [msgOf fe]

/-- The last violation record of `L` whose pipeline key is `field` and whose
tag is `rule` — the record whose message survives last-write-wins. -/
def lastMatchBy (keyOf : FieldError → String) (L : List FieldError)
    (field rule : String) : Option FieldError :=
  match L with
  | [] => none
  | fe :: rest =>
    match lastMatchBy keyOf rest field rule with
    | some x => some x
    | none => if keyOf fe = field ∧ fe.tag = rule then some fe else none

/-! ### Concrete fixtures for witnesses and counterexamples -/

/-- A translator whose lookup always succeeds with a fixed message. -/
def plainTr : Translator := ⟨fun _ _ _ _ _ => "GLOBAL"⟩

/-- A translator whose lookup always misses: `Plural` yields the empty string. -/
def emptyTr : Translator := ⟨fun _ _ _ _ _ => ""⟩

/-- A validated value implementing neither translation capability. -/
def noHooks : GoValue := ⟨none, none⟩

/-- A validated value whose error-translation hook always yields a fixed
non-empty message. -/
def hookVal : GoValue := ⟨some (fun _ _ _ => "FROM-VALUE"), none⟩

/-- Validator with prefix "v" and an always-hitting translator. -/
def vPlain : I18nValidator := ⟨"v", some plainTr⟩

/-- Validator with empty prefix and an always-missing translator. -/
def vEmptyTr : I18nValidator := ⟨"", some emptyTr⟩

/-- Validator with no translator configured. -/
def vNoTr : I18nValidator := ⟨"", none⟩

/-- A sample violation record: field "Name" failed rule "required" with the
engine default message "engine default". -/
def feSample : FieldError := ⟨"Name", "Name", "required", "", "engine default"⟩

/-! ### Lemmas about the map model -/

theorem lookupA_updateA {α : Type} (m : List (String × α)) (k q : String) (v : α) :
    lookupA (updateA m k v) q = if k = q then some v else lookupA m q := by
  induction m with
  | nil =>
    by_cases h : k = q <;> simp [updateA, lookupA, h]
  | cons p t ih =>
    obtain ⟨k0, v0⟩ := p
    by_cases h0 : k0 = k
    · subst h0
      by_cases h : k0 = q <;> simp [updateA, lookupA, h, ih]
    · by_cases h : k0 = q
      · subst h
        simp [updateA, lookupA, h0, Ne.symm h0]
      · simp [updateA, lookupA, h0, h, ih]

theorem lookupA_append {α : Type} (m m2 : List (String × α)) (q : String) :
    lookupA (m ++ m2) q =
      match lookupA m q with
      | some x => some x
      | none => lookupA m2 q := by
  induction m with
  | nil => simp [lookupA]
  | cons p t ih =>
    obtain ⟨k0, v0⟩ := p
    by_cases h : k0 = q <;> simp [lookupA, h, ih]

theorem lookupA_none_not_mem_keys {α : Type} (m : List (String × α)) (q : String)
    (h : lookupA m q = none) : q ∉ keysOf m := by
  induction m with
  | nil => simp [keysOf]
  | cons p t ih =>
    obtain ⟨k0, v0⟩ := p
    by_cases h0 : k0 = q
    · simp [lookupA, h0] at h
    · simp only [lookupA, h0, if_false] at h
      simp [keysOf, Ne.symm h0] at ih ⊢
      exact ih h

theorem lookupA_some_mem {α : Type} (m : List (String × α)) (q : String) (x : α)
    (h : lookupA m q = some x) : (q, x) ∈ m := by
  induction m with
  | nil => simp [lookupA] at h
  | cons p t ih =>
    obtain ⟨k0, v0⟩ := p
    by_cases h0 : k0 = q
    · subst h0
      simp [lookupA] at h
      simp [h]
    · simp only [lookupA, h0, if_false] at h
      exact List.mem_cons_of_mem _ (ih h)

theorem mem_updateA {α : Type} (m : List (String × α)) (k : String) (v : α)
    (p : String × α) (h : p ∈ updateA m k v) : p = (k, v) ∨ p ∈ m := by
  induction m with
  | nil =>
    simp [updateA] at h
    exact Or.inl h
  | cons q t ih =>
    obtain ⟨k0, v0⟩ := q
    by_cases h0 : k0 = k
    · simp only [updateA, h0, if_true] at h
      rcases List.mem_cons.mp h with h1 | h1
      · exact Or.inl h1
      · exact Or.inr (List.mem_cons_of_mem _ h1)
    · simp only [updateA, h0, if_false] at h
      rcases List.mem_cons.mp h with h1 | h1
      · exact Or.inr (by simp [h1])
      · rcases ih h1 with h2 | h2
        · exact Or.inl h2
        · exact Or.inr (List.mem_cons_of_mem _ h2)

theorem keysOf_updateA_mem {α : Type} (m : List (String × α)) (k : String) (v : α)
    (h : k ∈ keysOf m) : keysOf (updateA m k v) = keysOf m := by
  induction m with
  | nil => simp [keysOf] at h
  | cons p t ih =>
    obtain ⟨k0, v0⟩ := p
    by_cases h0 : k0 = k
    · simp [updateA, keysOf, h0]
    · have ht : k ∈ keysOf t := by
        simp only [keysOf, List.map_cons] at h
        rcases List.mem_cons.mp h with h1 | h1
        · exact absurd h1.symm h0
        · exact h1
      have ih2 := ih ht
      simp only [keysOf] at ih2
      simp [updateA, keysOf, h0, ih2]

theorem keysOf_updateA_not_mem {α : Type} (m : List (String × α)) (k : String) (v : α)
    (h : k ∉ keysOf m) : keysOf (updateA m k v) = keysOf m ++ [k] := by
  induction m with
  | nil => simp [updateA, keysOf]
  | cons p t ih =>
    obtain ⟨k0, v0⟩ := p
    have h1 : k ≠ k0 ∧ k ∉ keysOf t := by
      simp only [keysOf, List.map_cons, List.mem_cons] at h
      push_neg at h
      exact h
    have ih2 := ih h1.2
    simp only [keysOf] at ih2
    simp [updateA, keysOf, Ne.symm h1.1, ih2]

theorem nodup_keys_updateA {α : Type} (m : List (String × α)) (k : String) (v : α)
    (h : (keysOf m).Nodup) : (keysOf (updateA m k v)).Nodup := by
  by_cases hk : k ∈ keysOf m
  · rw [keysOf_updateA_mem m k v hk]; exact h
  · rw [keysOf_updateA_not_mem m k v hk]
    simp [List.nodup_append, h, List.disjoint_singleton]
    intro hc
    exact hk hc

theorem resolveParams_single (m : String) : resolveParams "" [m] = goTrimSpace m := by
  by_cases h : goTrimSpace m = "" <;> simp [resolveParams, h]

/-- Point characterization of `AddError`: it sets exactly the `(field, rule)`
cell to the trimmed message and leaves every other cell unchanged. -/
theorem lookupA2_AddError (e : VErrors) (F R : String) (msgs : List String) (F2 R2 : String) :
    lookupA2 (e.AddError F R msgs).valerr F2 R2 =
      if F2 = F ∧ R2 = R then some (resolveParams "" msgs)
      else lookupA2 e.valerr F2 R2 := by
  unfold VErrors.AddError
  cases hF : lookupA e.valerr F with
  | some inner =>
    by_cases h1 : F = F2
    · subst h1
      by_cases h2 : R = R2
      · subst h2
        simp [lookupA2, lookupA_updateA]
      · simp [lookupA2, lookupA_updateA, h2, Ne.symm h2, hF]
    · have hcond : ¬(F2 = F ∧ R2 = R) := fun h => h1 h.1.symm
      rw [if_neg hcond]
      simp [lookupA2, lookupA_updateA, h1]
  | none =>
    by_cases h1 : F = F2
    · subst h1
      by_cases h2 : R = R2
      · subst h2
        simp [lookupA2, lookupA_append, hF, lookupA]
      · simp [lookupA2, lookupA_append, hF, lookupA, h2, Ne.symm h2]
    · have hcond : ¬(F2 = F ∧ R2 = R) := fun h => h1 h.1.symm
      cases hF2 : lookupA e.valerr F2 with
      | some inner2 =>
        rw [if_neg hcond]
        simp [lookupA2, lookupA_append, hF2]
      | none =>
        rw [if_neg hcond]
        simp [lookupA2, lookupA_append, hF2, lookupA, h1]

theorem AddError_WF (e : VErrors) (F R : String) (msgs : List String) (h : e.WF) :
    (e.AddError F R msgs).WF := by
  obtain ⟨hout, hin⟩ := h
  unfold VErrors.AddError
  cases hF : lookupA e.valerr F with
  | some inner =>
    constructor
    · exact nodup_keys_updateA _ _ _ hout
    · intro p hp
      rcases mem_updateA _ _ _ _ hp with h1 | h1
      · subst h1
        exact nodup_keys_updateA _ _ _ (hin _ (lookupA_some_mem _ _ _ hF))
      · exact hin _ h1
  | none =>
    constructor
    · simp only [keysOf, List.map_append, List.map_cons, List.map_nil]
      rw [List.nodup_append]
      refine ⟨hout, List.nodup_singleton _, ?_⟩
      intro x hx hx1
      simp at hx1
      subst hx1
      exact lookupA_none_not_mem_keys _ _ hF hx
    · intro p hp
      rcases List.mem_append.mp hp with h1 | h1
      · exact hin _ h1
      · simp at h1
        subst h1
        simp [keysOf]

theorem filter_keq_nil {α : Type} (m : List (String × α)) (k : String)
    (h : k ∉ keysOf m) : m.filter (fun p => p.1 = k) = [] := by
  induction m with
  | nil => simp
  | cons p t ih =>
    obtain ⟨k0, v0⟩ := p
    simp only [keysOf, List.map_cons, List.mem_cons] at h
    push_neg at h
    simp only [List.filter_cons]
    rw [if_neg (by simp [Ne.symm h.1])]
    exact ih h.2

theorem filter_keq_updateA {α : Type} (m : List (String × α)) (k : String) (v : α)
    (h : (keysOf m).Nodup) : (updateA m k v).filter (fun p => p.1 = k) = [(k, v)] := by
  induction m with
  | nil => simp [updateA]
  | cons p t ih =>
    obtain ⟨k0, v0⟩ := p
    simp only [keysOf, List.map_cons, List.nodup_cons] at h
    by_cases h0 : k0 = k
    · subst h0
      simp [updateA, List.filter_cons, filter_keq_nil t k0 h.1]
    · simp [updateA, h0, List.filter_cons, ih h.2]

/-- After an `AddError`, the aggregate holds exactly one message for the
written pair: the trimmed incoming message. -/
theorem messagesFor_AddError (e : VErrors) (F R m : String) (h : e.WF) :
    (e.AddError F R [m]).messagesFor F R = [goTrimSpace m] := by
  obtain ⟨hout, hin⟩ := h
  unfold VErrors.AddError VErrors.messagesFor
  cases hF : lookupA e.valerr F with
  | some inner =>
    have hnodup : (keysOf inner).Nodup := hin _ (lookupA_some_mem _ _ _ hF)
    simp [lookupA_updateA,
      filter_keq_updateA inner R (goTrimSpace m) hnodup, resolveParams_single]
  | none =>
    simp [lookupA_append, hF, lookupA, resolveParams_single]

theorem IsFailedOn_lookupA2 (e : VErrors) (F R : String) :
    e.IsFailedOn F R = (lookupA2 e.valerr F R).isSome := by
  unfold VErrors.IsFailedOn lookupA2
  cases lookupA e.valerr F <;> simp

theorem parseStructErrors_violations (v : I18nValidator) (locale : String) (value : GoValue)
    (errs : List FieldError) :
    v.parseStructErrors locale value (some (GoErr.violations errs)) =
      errs.foldl (pipelineStep v.structKey (v.structMsg locale value)) NewEmptyError := rfl

theorem parseVariableErrors_violations (v : I18nValidator) (locale name : String)
    (value : GoValue) (errs : List FieldError) :
    v.parseVariableErrors locale name value (some (GoErr.violations errs)) =
      errs.foldl (pipelineStep (v.varKey name) (v.varMsg locale name value)) NewEmptyError := rfl

/-- What the pipeline loop leaves at one `(field, rule)` cell: the trimmed
message of the last record written there, else whatever the initial aggregate
held. -/
theorem lookupA2_foldl (keyOf msgOf : FieldError → String) (L : List FieldError)
    (init : VErrors) (F R : String) :
    lookupA2 ((L.foldl (pipelineStep keyOf msgOf) init).valerr) F R =
      match lastMatchBy keyOf L F R with
      | some x => some (goTrimSpace (msgOf x))
      | none => lookupA2 init.valerr F R := by
  induction L generalizing init with
  | nil => rfl
  | cons fe t ih =>
    simp only [List.foldl_cons, lastMatchBy]
    rw [ih]
    cases h : lastMatchBy keyOf t F R with
    | some x => rfl
    | none =>
      by_cases h1 : keyOf fe = F ∧ fe.tag = R
      · rw [if_pos h1]
        show lookupA2 ((init.AddError (keyOf fe) fe.tag [msgOf fe])).valerr F R =
          some (goTrimSpace (msgOf fe))
        rw [lookupA2_AddError, if_pos ⟨h1.1.symm, h1.2.symm⟩, resolveParams_single]
      · rw [if_neg h1]
        show lookupA2 ((init.AddError (keyOf fe) fe.tag [msgOf fe])).valerr F R =
          lookupA2 init.valerr F R
        rw [lookupA2_AddError, if_neg (fun h2 => h1 ⟨h2.1.symm, h2.2.symm⟩)]

theorem lastMatchBy_sound (keyOf : FieldError → String) (L : List FieldError)
    (F R : String) (x : FieldError) (h : lastMatchBy keyOf L F R = some x) :
    x ∈ L ∧ keyOf x = F ∧ x.tag = R := by
  induction L with
  | nil => simp [lastMatchBy] at h
  | cons h0 t ih =>
    simp only [lastMatchBy] at h
    cases hl : lastMatchBy keyOf t F R with
    | some y =>
      rw [hl] at h
      simp only [Option.some.injEq] at h
      subst h
      obtain ⟨hm, hk, ht⟩ := ih hl
      exact ⟨List.mem_cons_of_mem _ hm, hk, ht⟩
    | none =>
      rw [hl] at h
      by_cases hc : keyOf h0 = F ∧ h0.tag = R
      · rw [if_pos hc] at h
        simp only [Option.some.injEq] at h
        subst h
        exact ⟨List.mem_cons_self _ _, hc.1, hc.2⟩
      · rw [if_neg hc] at h
        simp at h

theorem lastMatchBy_isSome (keyOf : FieldError → String) (L : List FieldError)
    (fe : FieldError) (hmem : fe ∈ L) :
    (lastMatchBy keyOf L (keyOf fe) fe.tag).isSome := by
  induction L with
  | nil => simp at hmem
  | cons h0 t ih =>
    simp only [lastMatchBy]
    cases hl : lastMatchBy keyOf t (keyOf fe) fe.tag with
    | some x => simp
    | none =>
      rcases List.mem_cons.mp hmem with h1 | h1
      · subst h1
        rw [if_pos ⟨rfl, rfl⟩]
        simp
      · have h2 := ih h1
        rw [hl] at h2
        simp at h2

/-- Every record a pipeline loop processes ends with a live cell for its
`(key, tag)` pair: some message (possibly empty) is recorded there. -/
theorem foldl_isFailedOn (keyOf msgOf : FieldError → String) (L : List FieldError)
    (init : VErrors) (fe : FieldError) (hmem : fe ∈ L) :
    (L.foldl (pipelineStep keyOf msgOf) init).IsFailedOn (keyOf fe) fe.tag = true := by
  rw [IsFailedOn_lookupA2, lookupA2_foldl]
  cases hl : lastMatchBy keyOf L (keyOf fe) fe.tag with
  | some x => simp
  | none =>
    have h2 := lastMatchBy_isSome keyOf L fe hmem
    rw [hl] at h2
    simp at h2

/-- The cell a pipeline loop leaves for a processed record's pair holds the
trimmed message of the last record with that pair. -/
theorem foldl_lookup_last (keyOf msgOf : FieldError → String) (L : List FieldError)
    (fe : FieldError) (hmem : fe ∈ L) :
    ∃ x ∈ L, keyOf x = keyOf fe ∧ x.tag = fe.tag ∧
      lookupA2 ((L.foldl (pipelineStep keyOf msgOf) NewEmptyError).valerr) (keyOf fe) fe.tag =
        some (goTrimSpace (msgOf x)) := by
  have h1 := lastMatchBy_isSome keyOf L fe hmem
  cases hl : lastMatchBy keyOf L (keyOf fe) fe.tag with
  | none =>
    rw [hl] at h1
    simp at h1
  | some x =>
    obtain ⟨hm, hk, ht⟩ := lastMatchBy_sound keyOf L _ _ x hl
    refine ⟨x, hm, hk, ht, ?_⟩
    rw [lookupA2_foldl, hl]

theorem lookupA_map_values {α β : Type} (m : List (String × α)) (g : α → β) (q : String) :
    lookupA (m.map (fun p => (p.1, g p.2))) q = (lookupA m q).map g := by
  induction m with
  | nil => simp [lookupA]
  | cons p t ih =>
    obtain ⟨k0, v0⟩ := p
    by_cases h : k0 = q <;> simp [lookupA, h, ih]

theorem foldl_add_map_sum {α : Type} (l : List α) (f : α → Nat) (a : Nat) :
    l.foldl (fun acc i => acc + f i) a = a + (l.map f).sum := by
  induction l generalizing a with
  | nil => simp
  | cons h t ih => simp [ih, add_assoc]

/-! ### Claim theorems -/

/-- Claim C1 (code bug, evaluation of the code at the claim's own sample
inputs): the numeric coercion the pipelines actually perform maps "5" to the
unchanged string param with count 0 (both parses "fail" under the inverted
test), and maps "5.7" and "abc" to integer param 0 with count 0 (ParseInt
errors, so the inverted test returns its on-error value 0) — not the
intended integer 5 / float 5.7 / string "abc" with counts 5, 5, 0. -/
theorem coerceParam_inverted_eval :
    coerceParam "5" = (Param.str "5", 0) ∧
    coerceParam "5.7" = (Param.int 0, 0) ∧
    coerceParam "abc" = (Param.int 0, 0) := by
  decide

/-- Claim C2: a nil engine error makes both pipelines return the empty
aggregate: no error at all, no validation errors, no internal error. -/
theorem pipeline_nil_error_empty (v : I18nValidator) (locale name : String) (value : GoValue) :
    ((v.parseStructErrors locale value none).HasError = false ∧
      (v.parseStructErrors locale value none).HasValidationErrors = false ∧
      (v.parseStructErrors locale value none).HasInternalError = false) ∧
    ((v.parseVariableErrors locale name value none).HasError = false ∧
      (v.parseVariableErrors locale name value none).HasValidationErrors = false ∧
      (v.parseVariableErrors locale name value none).HasInternalError = false) := by
  simp [I18nValidator.parseStructErrors, I18nValidator.parseVariableErrors, NewEmptyError,
    VErrors.HasError, VErrors.HasValidationErrors, VErrors.HasInternalError]

/-- Claim C3: a non-nil engine error that is not a violation set makes both
pipelines return an aggregate holding exactly that error as internal error
and no validation errors. -/
theorem pipeline_internal_error_only (v : I18nValidator) (locale name : String)
    (value : GoValue) (e : String) :
    ((v.parseStructErrors locale value (some (GoErr.other e))).HasInternalError = true ∧
      (v.parseStructErrors locale value (some (GoErr.other e))).InternalError =
        some (GoErr.other e) ∧
      (v.parseStructErrors locale value (some (GoErr.other e))).HasValidationErrors = false) ∧
    ((v.parseVariableErrors locale name value (some (GoErr.other e))).HasInternalError = true ∧
      (v.parseVariableErrors locale name value (some (GoErr.other e))).InternalError =
        some (GoErr.other e) ∧
      (v.parseVariableErrors locale name value (some (GoErr.other e))).HasValidationErrors
        = false) := by
  simp [I18nValidator.parseStructErrors, I18nValidator.parseVariableErrors, NewError,
    VErrors.HasInternalError, VErrors.InternalError, VErrors.HasValidationErrors]

/-- Claim C4 counterexample: the second message is stored trimmed, not
verbatim — adding "a" then " b " for one pair leaves the single message "b",
not the second message " b ". -/
theorem addError_second_message_cex :
    ((NewEmptyError.AddError "F" "R" ["a"]).AddError "F" "R" [" b "]).messagesFor "F" "R"
      = ["b"] ∧
    (" b " : String) ≠ "b" := by
  decide

/-- Claim C4 (amended): on a well-formed aggregate, two AddError calls for the
same (field, rule) pair leave exactly one message for that pair, namely the
second message trimmed of surrounding whitespace (AddError stores messages
through resolveParams, which trims). -/
theorem addError_last_write_wins (e : VErrors) (F R m1 m2 : String) (h : e.WF) :
    ((e.AddError F R [m1]).AddError F R [m2]).messagesFor F R = [goTrimSpace m2] :=
  messagesFor_AddError _ F R m2 (AddError_WF e F R [m1] h)

/-- Witness for the amended C4 at a concrete aggregate and messages. -/
theorem addError_last_write_wins_witness :
    NewEmptyError.WF ∧
    ((NewEmptyError.AddError "Name" "required" ["first"]).AddError "Name" "required"
      ["second"]).messagesFor "Name" "required" = ["second"] :=
  ⟨by decide, by
    rw [addError_last_write_wins NewEmptyError "Name" "required" "first" "second" (by decide)]
    decide⟩

/-- Claim C5: with a translator configured, when the validated value
implements the error-translation capability and its hook returns a non-empty
string, `translate` returns exactly that string — for every prefix, every
global translator and every field-title hook, so none of them is consulted. -/
theorem translate_value_hook_precedence (v : I18nValidator) (locale name rule field : String)
    (param : Param) (value : GoValue) (count : Int)
    (t : String → String → String → String)
    (htr : v.translator.isSome = true)
    (hhook : value.translateError = some t)
    (hne : t locale rule field ≠ "") :
    v.translate locale name rule field param value count = t locale rule field := by
  unfold I18nValidator.translate
  cases hv : v.translator with
  | none => rw [hv] at htr; simp at htr
  | some tr => simp [hhook, hne]

/-- Witness for C5 at a concrete validator, value and hook. -/
theorem translate_value_hook_precedence_witness :
    vPlain.translator.isSome = true ∧
    hookVal.translateError = some (fun _ _ _ => "FROM-VALUE") ∧
    vPlain.translate "en" "Name" "required" "Field" (Param.str "") hookVal 0 = "FROM-VALUE" :=
  ⟨rfl, rfl,
    translate_value_hook_precedence vPlain "en" "Name" "required" "Field" (Param.str "")
      hookVal 0 (fun _ _ _ => "FROM-VALUE") rfl rfl (by decide)⟩

/-- Claim C6 counterexample: with prefix "v" and the rule name " a " (which is
non-empty after trimming), AddTranslation registers under the key "v.a" while
translate looks the same rule up under "v. a " — so, as universally stated
over rule names, registration and lookup keys do not always agree. -/
theorem translation_key_mismatch_cex :
    vPlain.addTranslationCall "en" " a " "msg" = some ("en", "v.a", "msg") ∧
    translateLookupKey vPlain.pfx " a " = "v. a " ∧
    ("v.a" : String) ≠ "v. a " := by
  decide

/-- Claim C6 (amended): for a validator with a translator configured and a
rule name that is non-empty and carries no surrounding whitespace,
AddTranslation passes to the translator exactly the key that `translate`
hands to `Plural`: the prefixed key `pfx ++ "." ++ rule` when a prefix is
set, the bare rule otherwise. -/
theorem translation_key_agreement (v : I18nValidator) (locale rule msg : String)
    (htr : v.translator.isSome = true)
    (htrim : goTrimSpace rule = rule) (hne : rule ≠ "") :
    v.addTranslationCall locale rule msg = some (locale, translateLookupKey v.pfx rule, msg) ∧
    (v.pfx ≠ "" → translateLookupKey v.pfx rule = v.pfx ++ "." ++ rule) ∧
    (v.pfx = "" → translateLookupKey v.pfx rule = rule) := by
  have hnone : v.translator.isNone = false := by
    cases hv : v.translator with
    | none => rw [hv] at htr; simp at htr
    | some tr => simp
  unfold I18nValidator.addTranslationCall translateLookupKey
  rw [htrim]
  by_cases hp : v.pfx = "" <;> simp [hne, hnone, hp]

/-- Witness for the amended C6 at a concrete validator and rule. -/
theorem translation_key_agreement_witness :
    goTrimSpace "is_valid" = "is_valid" ∧
    vPlain.addTranslationCall "en" "is_valid" "msg" = some ("en", "v.is_valid", "msg") :=
  ⟨by decide, by
    rw [(translation_key_agreement vPlain "en" "is_valid" "msg" rfl (by decide)
      (by decide)).1]
    decide⟩

/-- Claim C7 counterexample: with a translator configured whose lookup misses
(its Plural returns the empty string), the struct pipeline stores that empty
string for the record's pair — not the engine's default message "engine
default" — so the aggregate's entry is silently empty. -/
theorem missing_translation_not_default_cex :
    lookupA2 ((vEmptyTr.parseStructErrors "en" noHooks
        (some (GoErr.violations [feSample]))).valerr) "Name" "required" = some "" ∧
    feSample.errMsg = "engine default" ∧
    (some "" : Option String) ≠ some "engine default" := by
  decide

/-- Claim C7 (amended): every violation record a pipeline processes leaves an
entry for its pair — some message is always stored, though it may be empty
when a configured translator misses. When NO translator is configured, both
pipelines store the engine's own default message (whitespace-trimmed, as
AddError trims) of the last record with that pair; the variable pipeline then
also keys records by the engine-reported field name. When a translator is
configured, the variable pipeline keys records by the caller-supplied name. -/
theorem pipeline_records_every_violation (v : I18nValidator) (locale name : String)
    (value : GoValue) (errs : List FieldError) (fe : FieldError) (hmem : fe ∈ errs) :
    (v.parseStructErrors locale value (some (GoErr.violations errs))).IsFailedOn
        fe.field fe.tag = true ∧
    (v.translator = none →
      (∃ x ∈ errs, x.field = fe.field ∧ x.tag = fe.tag ∧
        lookupA2 (v.parseStructErrors locale value
            (some (GoErr.violations errs))).valerr fe.field fe.tag =
          some (goTrimSpace x.errMsg)) ∧
      (v.parseVariableErrors locale name value (some (GoErr.violations errs))).IsFailedOn
          fe.field fe.tag = true ∧
      (∃ x ∈ errs, x.field = fe.field ∧ x.tag = fe.tag ∧
        lookupA2 (v.parseVariableErrors locale name value
            (some (GoErr.violations errs))).valerr fe.field fe.tag =
          some (goTrimSpace x.errMsg))) ∧
    (v.translator.isSome = true →
      (v.parseVariableErrors locale name value (some (GoErr.violations errs))).IsFailedOn
          name fe.tag = true) := by
  refine ⟨?_, ?_, ?_⟩
  · rw [parseStructErrors_violations]
    exact foldl_isFailedOn v.structKey (v.structMsg locale value) errs NewEmptyError fe hmem
  · intro hv
    have hm1 : v.structMsg locale value = fun fe2 => fe2.errMsg := by
      funext fe2
      simp [I18nValidator.structMsg, hv]
    have hk2 : v.varKey name = fun fe2 => fe2.field := by
      funext fe2
      simp [I18nValidator.varKey, hv]
    have hm2 : v.varMsg locale name value = fun fe2 => fe2.errMsg := by
      funext fe2
      simp [I18nValidator.varMsg, hv]
    refine ⟨?_, ?_, ?_⟩
    · rw [parseStructErrors_violations, hm1]
      obtain ⟨x, hxm, hxk, hxt, hxeq⟩ :=
        foldl_lookup_last v.structKey (fun fe2 => fe2.errMsg) errs fe hmem
      exact ⟨x, hxm, hxk, hxt, hxeq⟩
    · rw [parseVariableErrors_violations, hk2, hm2]
      exact foldl_isFailedOn (fun fe2 => fe2.field) (fun fe2 => fe2.errMsg)
        errs NewEmptyError fe hmem
    · rw [parseVariableErrors_violations, hk2, hm2]
      obtain ⟨x, hxm, hxk, hxt, hxeq⟩ :=
        foldl_lookup_last (fun fe2 => fe2.field) (fun fe2 => fe2.errMsg) errs fe hmem
      exact ⟨x, hxm, hxk, hxt, hxeq⟩
  · intro hsome
    obtain ⟨tr, hv⟩ : ∃ tr, v.translator = some tr := by
      cases hv2 : v.translator with
      | none => rw [hv2] at hsome; simp at hsome
      | some tr => exact ⟨tr, rfl⟩
    have hk3 : v.varKey name = fun _ => name := by
      funext fe2
      simp [I18nValidator.varKey, hv]
    rw [parseVariableErrors_violations, hk3]
    exact foldl_isFailedOn (fun _ => name) (v.varMsg locale name value)
      errs NewEmptyError fe hmem

/-- Witness for the amended C7 at a concrete validator and record list. -/
theorem pipeline_records_every_violation_witness :
    feSample ∈ [feSample] ∧
    (vNoTr.parseStructErrors "en" noHooks
      (some (GoErr.violations [feSample]))).IsFailedOn "Name" "required" = true :=
  ⟨by simp,
    (pipeline_records_every_violation vNoTr "en" "x" noHooks [feSample] feSample (by simp)).1⟩

/-- Claim C8 counterexample: with no translator configured, a named-variable
validation with caller-supplied name "my_var" records the violation under the
engine-reported field name, not under "my_var" — so the name is not used as
the structural key "regardless of whether a translator is configured". -/
theorem variable_name_identity_cex :
    (vNoTr.parseVariableErrors "en" "my_var" noHooks
        (some (GoErr.violations [feSample]))).IsFailed "my_var" = false ∧
    (vNoTr.parseVariableErrors "en" "my_var" noHooks
        (some (GoErr.violations [feSample]))).IsFailed "Name" = true := by
  decide

/-- Claim C8 (amended): when a translator is configured, every record of a
named-variable validation is recorded under the caller-supplied name, and the
stored message is the translate result with that name passed both as display
name and as translation field name; when no translator is configured records
are keyed by the engine-reported field name instead. -/
theorem variable_records_under_name (v : I18nValidator) (locale name : String)
    (value : GoValue) (errs : List FieldError) (fe : FieldError) (hmem : fe ∈ errs) :
    (v.translator.isSome = true →
      (v.parseVariableErrors locale name value (some (GoErr.violations errs))).IsFailedOn
          name fe.tag = true ∧
      (∃ x ∈ errs, x.tag = fe.tag ∧
        lookupA2 (v.parseVariableErrors locale name value
            (some (GoErr.violations errs))).valerr name fe.tag =
          some (goTrimSpace (v.translate locale name x.tag name
            (coerceParam x.param).1 value (coerceParam x.param).2)))) ∧
    (v.translator = none →
      (v.parseVariableErrors locale name value (some (GoErr.violations errs))).IsFailedOn
          fe.field fe.tag = true) := by
  constructor
  · intro hsome
    obtain ⟨tr, hv⟩ : ∃ tr, v.translator = some tr := by
      cases hv2 : v.translator with
      | none => rw [hv2] at hsome; simp at hsome
      | some tr => exact ⟨tr, rfl⟩
    have hk : v.varKey name = fun _ => name := by
      funext fe2
      simp [I18nValidator.varKey, hv]
    have hm : v.varMsg locale name value = fun x => v.translate locale name x.tag name
        (coerceParam x.param).1 value (coerceParam x.param).2 := by
      funext fe2
      simp [I18nValidator.varMsg, hv]
    constructor
    · rw [parseVariableErrors_violations, hk, hm]
      exact foldl_isFailedOn (fun _ => name) _ errs NewEmptyError fe hmem
    · rw [parseVariableErrors_violations, hk, hm]
      obtain ⟨x, hxm, hxk, hxt, hxeq⟩ :=
        foldl_lookup_last (fun _ => name)
          (fun x => v.translate locale name x.tag name
            (coerceParam x.param).1 value (coerceParam x.param).2) errs fe hmem
      exact ⟨x, hxm, hxt, hxeq⟩
  · intro hv
    have hk : v.varKey name = fun fe2 => fe2.field := by
      funext fe2
      simp [I18nValidator.varKey, hv]
    rw [parseVariableErrors_violations, hk]
    exact foldl_isFailedOn (fun fe2 => fe2.field) _ errs NewEmptyError fe hmem

/-- Witness for the amended C8 at a concrete validator, name and record. -/
theorem variable_records_under_name_witness :
    feSample ∈ [feSample] ∧ vPlain.translator.isSome = true ∧
    (vPlain.parseVariableErrors "en" "my_var" noHooks
      (some (GoErr.violations [feSample]))).IsFailedOn "my_var" "required" = true :=
  ⟨by simp, rfl,
    ((variable_records_under_name vPlain "en" "my_var" noHooks [feSample] feSample
      (by simp)).1 rfl).1⟩

theorem beq_ite (d r1 r2 : Nat) (c : Prop) [Decidable c] :
    (if c then d == r1 else d == r2) = (d == if c then r1 else r2) := by
  by_cases h : c <;> simp [h]

/-- Claim C9: the national-code predicate agrees everywhere with the claim's
description (exactly ten ASCII digits whose tenth digit is the weighted
checksum of the first nine), accepts "0499370899", and rejects the same
string under each of the nine other tenth digits. -/
theorem nationalCode_checksum_correct :
    (∀ s, IsValidIranianNationalCode s = specIranianNationalCode s) ∧
    IsValidIranianNationalCode "0499370899" = true ∧
    (IsValidIranianNationalCode "0499370890" = false ∧
      IsValidIranianNationalCode "0499370891" = false ∧
      IsValidIranianNationalCode "0499370892" = false ∧
      IsValidIranianNationalCode "0499370893" = false ∧
      IsValidIranianNationalCode "0499370894" = false ∧
      IsValidIranianNationalCode "0499370895" = false ∧
      IsValidIranianNationalCode "0499370896" = false ∧
      IsValidIranianNationalCode "0499370897" = false ∧
      IsValidIranianNationalCode "0499370898" = false) := by
  refine ⟨?_, by decide, by decide⟩
  intro s
  unfold IsValidIranianNationalCode specIranianNationalCode
  by_cases h1 : s.length = 10
  · by_cases h2 : s.data.all (fun c => c.isDigit)
    · simp [h1, h2, foldl_add_map_sum, beq_ite]
    · simp [h1, h2]
  · simp [h1]

/-- Claim C10: the aggregate's query views are mutually consistent: a pair
failure implies the field failure; Rules and Messages have exactly the fields
of Errors as keys; per field, Rules holds exactly the rule names of the
field's Errors entry and Messages one message per such rule (equal lengths).
This is stated for every aggregate state, hence in particular after any
sequence of AddError calls. -/
theorem aggregate_views_consistent (e : VErrors) (F R : String)
    (h : e.IsFailedOn F R = true) :
    e.IsFailed F = true ∧
    keysOf e.Rules = keysOf e.Errors ∧
    keysOf e.Messages = keysOf e.Errors ∧
    (∀ G, lookupA e.Rules G = (lookupA e.Errors G).map (fun inner => inner.map Prod.fst)) ∧
    (∀ G, (lookupA e.Messages G).map List.length = (lookupA e.Errors G).map List.length ∧
      (lookupA e.Rules G).map List.length = (lookupA e.Errors G).map List.length) := by
  refine ⟨?_, ?_, ?_, ?_, ?_⟩
  · unfold VErrors.IsFailed
    unfold VErrors.IsFailedOn at h
    cases hF : lookupA e.valerr F with
    | none => rw [hF] at h; simp at h
    | some inner => simp
  · simp [keysOf, VErrors.Rules, VErrors.Errors]
  · simp [keysOf, VErrors.Messages, VErrors.Errors]
  · intro G
    simp only [VErrors.Rules, VErrors.Errors]
    exact lookupA_map_values e.valerr _ G
  · intro G
    constructor
    · simp only [VErrors.Messages, VErrors.Errors, lookupA_map_values]
      cases lookupA e.valerr G <;> simp
    · simp only [VErrors.Rules, VErrors.Errors, lookupA_map_values]
      cases lookupA e.valerr G <;> simp

/-- Witness for C10 at a concrete aggregate and pair. -/
theorem aggregate_views_consistent_witness :
    (NewEmptyError.AddError "f" "r" ["m"]).IsFailedOn "f" "r" = true ∧
    (NewEmptyError.AddError "f" "r" ["m"]).IsFailed "f" = true :=
  ⟨by decide,
    (aggregate_views_consistent (NewEmptyError.AddError "f" "r" ["m"]) "f" "r" (by decide)).1⟩

end Govalidator
